import Mathlib

/-!
Verification of the `NodeGraph` container from `src/support/nodegraph.rs`.

`NodeGraph<Node, Edge, NodeData>` wraps a `petgraph::Graph<NodeData, Edge>`
(a directed graph addressed by dense integer node indices) together with a
`HashMap<Node, NodeIndex>` mapping caller-chosen keys to graph indices.

The shallow embedding models:

* `PGraph D E` — `petgraph::Graph<D, E>` (directed).  `nodes` is the node
  weight vector, indexed by position.  `edges` holds the surviving edges in
  chronological insertion order together with their endpoint indices.
  petgraph stores per-node adjacency as intrusive linked lists where
  `add_edge` pushes the new edge at the head of both endpoint lists and
  removal unlinks without reordering, so a node's adjacency iteration order
  (`edges`, `edges_directed`, `neighbors`, `find_edge` walks) is always the
  reverse of chronological insertion order restricted to surviving incident
  edges; the chronological list is therefore a sufficient representation.
  `Graph::remove_node` removes the incident edges, then swap-removes the
  node: the node with the largest index adopts the removed node's index
  (edge endpoints referring to it are patched, but — crucially for the
  wrapper — any *external* copy of the old index is silently invalidated).
* assoc-list operations for the `HashMap<Node, NodeIndex>` (`mapGet`,
  `mapInsert`, `mapRemove`, `revLookup`); keys are unique in any map
  produced by the container, so first-match lookup and remove-all-matches
  erasure coincide with the hash-map behaviour.
* the `NodeGraph` methods themselves, each mutating method returning the
  pair (return value, resulting graph); `add_edge` returns `none` for the
  out-of-bounds panic of `petgraph::Graph::add_edge`, which the wrapper can
  hit only via an already-dangling index.
-/

set_option autoImplicit false

/-- `petgraph::Graph<D, E>` with directed edges: node weights in index
order, and the surviving edges `(source, target, weight)` in chronological
insertion order (see the header comment for why this order is canonical). -/
structure PGraph (D E : Type) where
  nodes : List D
  edges : List (Nat × Nat × E)

/-- `Graph::add_node`: push the weight, return the new index. -/
def PGraph.addNode {D E : Type} (g : PGraph D E) (d : D) : PGraph D E × Nat :=
  (⟨g.nodes ++ [d], g.edges⟩, g.nodes.length)

/-- `Graph::node_weight`. -/
def PGraph.nodeWeight {D E : Type} (g : PGraph D E) (i : Nat) : Option D :=
  g.nodes[i]?

/-- A node's outgoing adjacency list in iteration order: petgraph walks the
per-node linked list, most recently inserted edge first. -/
def PGraph.outEdges {D E : Type} (g : PGraph D E) (i : Nat) : List (Nat × Nat × E) :=
  (g.edges.filter (fun e => e.1 = i)).reverse

/-- `Graph::add_edge`; `none` models the panic on an out-of-bounds
endpoint index. -/
def PGraph.addEdge {D E : Type} (g : PGraph D E) (a b : Nat) (w : E) :
    Option (PGraph D E) :=
  if a < g.nodes.length ∧ b < g.nodes.length then
    some ⟨g.nodes, g.edges ++ [(a, b, w)]⟩
  else
    none

/-- `Graph::find_edge` on a directed graph: `none` when the source index
does not exist, otherwise the first edge with target `b` on `a`'s outgoing
list (= the most recently inserted surviving `a → b` edge). -/
def PGraph.findEdge {D E : Type} (g : PGraph D E) (a b : Nat) :
    Option (Nat × Nat × E) :=
  if a < g.nodes.length then
    (g.outEdges a).find? (fun e => e.2.1 = b)
  else
    none

/-- `Graph::contains_edge` on a directed graph. -/
def PGraph.containsEdge {D E : Type} (g : PGraph D E) (a b : Nat) : Bool :=
  (g.findEdge a b).isSome

/-- `find_edge` followed by `Graph::remove_edge`, as the wrapper composes
them: remove the most recently inserted `a → b` edge and return its weight.
(`Graph::remove_edge` swap-removes in the edge vector, which permutes edge
*indices* but not the linked-list adjacency order this model tracks.) -/
def PGraph.removeEdge {D E : Type} (g : PGraph D E) (a b : Nat) :
    Option (E × PGraph D E) :=
  match g.findEdge a b with
  | none => none
  | some e =>
      some (e.2.2,
        ⟨g.nodes, (g.edges.reverse.eraseP (fun e => e.1 = a ∧ e.2.1 = b)).reverse⟩)

/-- `Graph::remove_node`: `none` when the index does not exist; otherwise
drop every incident edge, swap-remove the node (the last node adopts index
`i`, edge endpoints naming the old last index are rewritten to `i`), and
return the removed weight. -/
def PGraph.removeNode {D E : Type} (g : PGraph D E) (i : Nat) :
    Option (D × PGraph D E) :=
  match g.nodes[i]? with
  | none => none
  | some w =>
      let last := g.nodes.length - 1
      let keep := g.edges.filter (fun e => ¬ (e.1 = i ∨ e.2.1 = i))
      let patch := fun j => if j = last then i else j
      some (w,
        ⟨(g.nodes.set i (g.nodes.getLast?.getD w)).dropLast,
         keep.map (fun e => (patch e.1, patch e.2.1, e.2.2))⟩)

/-- Outgoing neighbor indices in iteration order (`Graph::neighbors` on a
directed graph). -/
def PGraph.neighbors {D E : Type} (g : PGraph D E) (i : Nat) : List Nat :=
  (g.outEdges i).map (fun e => e.2.1)

/-- The loop of `petgraph::visit::Dfs::next`: pop the stack; a node not yet
discovered is marked, its not-yet-discovered neighbors are pushed (in
adjacency iteration order, so the last-pushed neighbor is popped first),
and it is emitted.  Fuel bounds the iteration count; pushes are bounded by
one per edge plus the start node, so the fuel used below never runs out. -/
def PGraph.dfsLoop {D E : Type} (g : PGraph D E) :
    Nat → List Nat → List Nat → List Nat
  | 0, _, _ => []
  | _ + 1, [], _ => []
  | fuel + 1, nx :: stack, disc =>
      if nx ∈ disc then
        g.dfsLoop fuel stack disc
      else
        let disc' := nx :: disc
        let pushes := (g.neighbors nx).filter (fun s => ¬ s ∈ disc')
        nx :: g.dfsLoop fuel (pushes.reverse ++ stack) disc'

/-- Full DFS visit order from a start index (`Dfs::new` pushes exactly the
start node and discovers nothing yet). -/
def PGraph.dfs {D E : Type} (g : PGraph D E) (start : Nat) : List Nat :=
  g.dfsLoop (g.nodes.length + g.edges.length + 2) [start] []

/-- `HashMap::get`, on the assoc-list model: first binding for the key. -/
def mapGet {N : Type} [DecidableEq N] : List (N × Nat) → N → Option Nat
  | [], _ => none
  | (k', v) :: rest, k => if k' = k then some v else mapGet rest k

/-- `HashMap::insert`: replace the key's binding in place, or append a new
binding. -/
def mapInsert {N : Type} [DecidableEq N] :
    List (N × Nat) → N → Nat → List (N × Nat)
  | [], k, v => [(k, v)]
  | (k', v') :: rest, k, v =>
      if k' = k then (k, v) :: rest else (k', v') :: mapInsert rest k v

/-- `HashMap::remove`: drop the key's binding (keys are unique in any map
the container builds, so dropping every binding for the key is the same). -/
def mapRemove {N : Type} [DecidableEq N] : List (N × Nat) → N → List (N × Nat)
  | [], _ => []
  | (k', v') :: rest, k =>
      if k' = k then mapRemove rest k else (k', v') :: mapRemove rest k

/-- The linear reverse lookup `index_map.iter().find_map(|(id, &idx)| ...)`
used to report an internal index back as a key. -/
def revLookup {N : Type} [DecidableEq N] : List (N × Nat) → Nat → Option N
  | [], _ => none
  | (k', v') :: rest, i => if v' = i then some k' else revLookup rest i

/-- The error enum `NodeGraphError` from `nodegraph.rs`. -/
inductive NodeGraphError where
  | nodeAlreadyExists
  | nodeNotFound
  | edgeError
  | serializationError (msg : String)
  | deserializationError (msg : String)

/-- `NodeGraph<Node, Edge, NodeData>`: the wrapped petgraph graph plus the
key → index map. -/
structure NodeGraph (N E D : Type) where
  graph : PGraph D E
  index_map : List (N × Nat)

/-- `NodeGraph::new` / `Default::default`. -/
def NodeGraph.new {N E D : Type} : NodeGraph N E D :=
  ⟨⟨[], []⟩, []⟩

/-- `NodeGraph::add_node`: allocate a fresh graph slot for the payload and
(re)bind the key to it; returns the key, as the Rust method does. -/
def NodeGraph.add_node {N E D : Type} [DecidableEq N]
    (g : NodeGraph N E D) (id : N) (data : D) : N × NodeGraph N E D :=
  let (pg, index) := g.graph.addNode data
  (id, ⟨pg, mapInsert g.index_map id index⟩)

/-- `NodeGraph::remove_node`: remove the key's binding and the underlying
node, returning its payload; an absent key leaves everything unchanged. -/
def NodeGraph.remove_node {N E D : Type} [DecidableEq N]
    (g : NodeGraph N E D) (id : N) : Option D × NodeGraph N E D :=
  match mapGet g.index_map id with
  | none => (none, g)
  | some index =>
      match g.graph.removeNode index with
      | none => (none, ⟨g.graph, mapRemove g.index_map id⟩)
      | some (w, pg) => (some w, ⟨pg, mapRemove g.index_map id⟩)

/-- `NodeGraph::add_edge`: resolve both keys (failing with `NodeNotFound`
and touching nothing when either is unmapped) and insert the directed
edge.  `none` models the `Graph::add_edge` panic on a dangling index. -/
def NodeGraph.add_edge {N E D : Type} [DecidableEq N]
    (g : NodeGraph N E D) (a b : N) (w : E) :
    Option (Except NodeGraphError Unit × NodeGraph N E D) :=
  match mapGet g.index_map a with
  | none => some (Except.error NodeGraphError.nodeNotFound, g)
  | some fi =>
      match mapGet g.index_map b with
      | none => some (Except.error NodeGraphError.nodeNotFound, g)
      | some ti =>
          match g.graph.addEdge fi ti w with
          | none => none
          | some pg => some (Except.ok (), ⟨pg, g.index_map⟩)

/-- `NodeGraph::remove_edge`: resolve both keys, find the first matching
edge and remove it, returning its weight; any miss returns `none` and
leaves the graph unchanged. -/
def NodeGraph.remove_edge {N E D : Type} [DecidableEq N]
    (g : NodeGraph N E D) (a b : N) : Option E × NodeGraph N E D :=
  match mapGet g.index_map a, mapGet g.index_map b with
  | some fi, some ti =>
      match g.graph.removeEdge fi ti with
      | none => (none, g)
      | some (w, pg) => (some w, ⟨pg, g.index_map⟩)
  | _, _ => (none, g)

/-- `NodeGraph::contains_node`. -/
def NodeGraph.contains_node {N E D : Type} [DecidableEq N]
    (g : NodeGraph N E D) (id : N) : Bool :=
  (mapGet g.index_map id).isSome

/-- `NodeGraph::contains_edge`: true only when both keys resolve and the
underlying graph has a directed edge between the resolved indices. -/
def NodeGraph.contains_edge {N E D : Type} [DecidableEq N]
    (g : NodeGraph N E D) (a b : N) : Bool :=
  match mapGet g.index_map a, mapGet g.index_map b with
  | some fi, some ti => g.graph.containsEdge fi ti
  | _, _ => false

/-- `NodeGraph::node_data`. -/
def NodeGraph.node_data {N E D : Type} [DecidableEq N]
    (g : NodeGraph N E D) (id : N) : Option D :=
  match mapGet g.index_map id with
  | none => none
  | some index => g.graph.nodeWeight index

/-- `NodeGraph::get_edges_connected_to_node`: `Graph::edges` on a directed
graph yields the outgoing edges in adjacency order; each is reported as
(adjacent key, weight), silently skipping endpoints with no key. -/
def NodeGraph.get_edges_connected_to_node {N E D : Type} [DecidableEq N]
    (g : NodeGraph N E D) (id : N) : Option (List (N × E)) :=
  match mapGet g.index_map id with
  | none => none
  | some index =>
      some ((g.graph.outEdges index).filterMap (fun e =>
        let adjacent := if e.1 = index then e.2.1 else e.1
        match revLookup g.index_map adjacent with
        | none => none
        | some id2 => some (id2, e.2.2)))

/-- `NodeGraph::get_edges_from`: outgoing edges as (target key, weight),
silently skipping targets with no key. -/
def NodeGraph.get_edges_from {N E D : Type} [DecidableEq N]
    (g : NodeGraph N E D) (id : N) : Option (List (N × E)) :=
  match mapGet g.index_map id with
  | none => none
  | some index =>
      some ((g.graph.outEdges index).filterMap (fun e =>
        (revLookup g.index_map e.2.1).map (fun tid => (tid, e.2.2))))

/-- `NodeGraph::traverse_dfs`: `none` on an unmapped start key, otherwise
the DFS visit order with each visited index reported back through the
linear reverse lookup (indices with no key are skipped). -/
def NodeGraph.traverse_dfs {N E D : Type} [DecidableEq N]
    (g : NodeGraph N E D) (start : N) : Option (List N) :=
  match mapGet g.index_map start with
  | none => none
  | some si =>
      some ((g.graph.dfs si).filterMap (fun nx => revLookup g.index_map nx))

/-- `NodeGraph::node_count`. -/
def NodeGraph.node_count {N E D : Type} (g : NodeGraph N E D) : Nat :=
  g.graph.nodes.length

/-- `NodeGraph::edge_count`. -/
def NodeGraph.edge_count {N E D : Type} (g : NodeGraph N E D) : Nat :=
  g.graph.edges.length

/-- `NodeGraph::is_empty`. -/
def NodeGraph.is_empty {N E D : Type} (g : NodeGraph N E D) : Bool :=
  g.graph.nodes.length = 0

/-- The serde representation of a `NodeGraph` (the `derive(Serialize,
Deserialize)` on the struct): the wrapped graph is encoded as the node
weights in index order plus the `(source, target, weight)` triples of the
edges, and the key map as its key/index pairs (a hash map round-trips to an
equal map; its encoded entry order is unobservable).  For a graph built
without removals the encoded edge order is the insertion order that
`PGraph.edges` tracks. -/
structure SerializedGraph (N E D : Type) where
  nodes : List D
  edges : List (Nat × Nat × E)
  index_map : List (N × Nat)

/-- Serialization of a `NodeGraph` (via the derived `Serialize`). -/
def NodeGraph.serialize {N E D : Type} (g : NodeGraph N E D) :
    SerializedGraph N E D :=
  ⟨g.graph.nodes, g.graph.edges, g.index_map⟩

/-- petgraph's graph deserializer re-adds the listed edges in order to a
graph holding the listed node weights, failing on an edge endpoint that is
not a valid node index. -/
def buildEdges {D E : Type} : PGraph D E → List (Nat × Nat × E) → Option (PGraph D E)
  | g, [] => some g
  | g, e :: rest =>
      match g.addEdge e.1 e.2.1 e.2.2 with
      | none => none
      | some g' => buildEdges g' rest

/-- Deserialization of a `NodeGraph` (via the derived `Deserialize`);
`none` models a `DeserializationError`. -/
def NodeGraph.deserialize {N E D : Type} (s : SerializedGraph N E D) :
    Option (NodeGraph N E D) :=
  match buildEdges ⟨s.nodes, []⟩ s.edges with
  | none => none
  | some pg => some ⟨pg, s.index_map⟩

/-- The graphs reachable from `NodeGraph::new` by `add_node` and
(successful) `add_edge` calls.  A failed `add_edge` call leaves the graph
unchanged, so such calls add no further reachable states. -/
inductive Built {N E D : Type} [DecidableEq N] : NodeGraph N E D → Prop where
  | empty : Built NodeGraph.new
  | addNode {g : NodeGraph N E D} (id : N) (d : D) :
      Built g → Built (g.add_node id d).2
  | addEdge {g g' : NodeGraph N E D} (a b : N) (w : E) :
      Built g → g.add_edge a b w = some (Except.ok (), g') → Built g'

theorem mapGet_mapInsert_self {N : Type} [DecidableEq N]
    (m : List (N × Nat)) (k : N) (v : Nat) :
    mapGet (mapInsert m k v) k = some v := by
  induction m with
  | nil => simp [mapInsert, mapGet]
  | cons p rest ih =>
      obtain ⟨k', v'⟩ := p
      by_cases h : k' = k <;> simp [mapInsert, mapGet, h, ih]

theorem mapGet_mapRemove_self {N : Type} [DecidableEq N]
    (m : List (N × Nat)) (k : N) :
    mapGet (mapRemove m k) k = none := by
  induction m with
  | nil => simp [mapRemove, mapGet]
  | cons p rest ih =>
      obtain ⟨k', v'⟩ := p
      by_cases h : k' = k <;> simp [mapRemove, mapGet, h, ih]

theorem contains_node_eq_false_iff {N E D : Type} [DecidableEq N]
    (g : NodeGraph N E D) (k : N) :
    g.contains_node k = false ↔ mapGet g.index_map k = none := by
  unfold NodeGraph.contains_node
  cases mapGet g.index_map k <;> simp

theorem add_edge_ok_inv {N E D : Type} [DecidableEq N]
    {g g' : NodeGraph N E D} {a b : N} {w : E}
    (h : g.add_edge a b w = some (Except.ok (), g')) :
    ∃ fi ti, mapGet g.index_map a = some fi ∧ mapGet g.index_map b = some ti ∧
      fi < g.graph.nodes.length ∧ ti < g.graph.nodes.length ∧
      g' = ⟨⟨g.graph.nodes, g.graph.edges ++ [(fi, ti, w)]⟩, g.index_map⟩ := by
  unfold NodeGraph.add_edge at h
  rcases hma : mapGet g.index_map a with _ | fi <;> rw [hma] at h
  · simp at h
  rcases hmb : mapGet g.index_map b with _ | ti <;> rw [hmb] at h
  · simp at h
  by_cases hlt : fi < g.graph.nodes.length ∧ ti < g.graph.nodes.length
  · simp only [PGraph.addEdge, if_pos hlt] at h
    simp at h
    exact ⟨fi, ti, rfl, rfl, hlt.1, hlt.2, h.symm⟩
  · simp only [PGraph.addEdge, if_neg hlt] at h
    simp at h

theorem built_edges_lt {N E D : Type} [DecidableEq N] {g : NodeGraph N E D}
    (h : Built g) :
    ∀ e ∈ g.graph.edges,
      e.1 < g.graph.nodes.length ∧ e.2.1 < g.graph.nodes.length := by
  induction h with
  | empty => simp [NodeGraph.new]
  | addNode id d _ ih =>
      intro e he
      simp only [NodeGraph.add_node, PGraph.addNode, List.length_append,
        List.length_cons, List.length_nil] at he ⊢
      have := ih e he
      omega
  | addEdge a b w _ hok ih =>
      obtain ⟨fi, ti, _, _, hfi, hti, hg'⟩ := add_edge_ok_inv hok
      subst hg'
      intro e he
      simp only [List.mem_append, List.mem_singleton] at he
      rcases he with he | he
      · exact ih e he
      · subst he
        exact ⟨hfi, hti⟩

theorem buildEdges_of_lt {D E : Type} (l : List (Nat × Nat × E)) (g : PGraph D E)
    (h : ∀ e ∈ l, e.1 < g.nodes.length ∧ e.2.1 < g.nodes.length) :
    buildEdges g l = some ⟨g.nodes, g.edges ++ l⟩ := by
  induction l generalizing g with
  | nil => simp [buildEdges]
  | cons e rest ih =>
      have he := h e (by simp)
      have hrest : ∀ e' ∈ rest,
          e'.1 < (⟨g.nodes, g.edges ++ [e]⟩ : PGraph D E).nodes.length ∧
          e'.2.1 < (⟨g.nodes, g.edges ++ [e]⟩ : PGraph D E).nodes.length := by
        intro e' he'
        exact h e' (by simp [he'])
      calc buildEdges g (e :: rest)
          = buildEdges (⟨g.nodes, g.edges ++ [e]⟩ : PGraph D E) rest := by
            simp only [buildEdges, PGraph.addEdge, if_pos (And.intro he.1 he.2)]
        _ = some ⟨g.nodes, g.edges ++ e :: rest⟩ := by
            rw [ih _ hrest]
            simp

/-- A `Built` graph deserializes from its own serialization to itself. -/
theorem deserialize_serialize_of_built {N E D : Type} [DecidableEq N]
    {g : NodeGraph N E D} (h : Built g) :
    NodeGraph.deserialize g.serialize = some g := by
  unfold NodeGraph.deserialize NodeGraph.serialize
  rw [buildEdges_of_lt g.graph.edges ⟨g.graph.nodes, []⟩ (built_edges_lt h)]
  rfl

/-- Threads a concrete `add_edge` call when building example graphs,
keeping the previous graph when the call does not succeed (every concrete
build below succeeds, as the evaluations in the theorems confirm). -/
def addEdgeD {N E D : Type} [DecidableEq N]
    (g : NodeGraph N E D) (a b : N) (w : E) : NodeGraph N E D :=
  match g.add_edge a b w with
  | some (Except.ok _, g') => g'
  | _ => g

/-- Two nodes `"a"`, `"b"` inserted in that order, no edges. -/
def removalDemo : NodeGraph String String String :=
  (((NodeGraph.new : NodeGraph String String String).add_node "a" "da").2.add_node
    "b" "db").2

/-- Nodes `"node1"`, `"node2"` inserted in that order, no edges. -/
def pairDemo : NodeGraph String String String :=
  (((NodeGraph.new : NodeGraph String String String).add_node "node1"
    "Node 1").2.add_node "node2" "Node 2").2

/-- `pairDemo` plus the single edge `"node1" → "node2"` with payload
`"edge1-2"` (the `get_edges_connected_to_node` scenario of the spec). -/
def edgeDemo : NodeGraph String String String :=
  addEdgeD pairDemo "node1" "node2" "edge1-2"

/-- Nodes `"root"`, `"child1"`, `"child2"` inserted in that order, then the
edges `"root" → "child1"` and `"root" → "child2"` in that order (the DFS
scenario of the spec). -/
def dfsDemo : NodeGraph String String String :=
  addEdgeD
    (addEdgeD
      ((((NodeGraph.new : NodeGraph String String String).add_node "root"
        "Root").2.add_node "child1" "Child 1").2.add_node "child2" "Child 2").2
      "root" "child1" "edge1")
    "root" "child2" "edge2"

/-- C1: the claim asserts that after any successful `remove_node`, every
key remaining in the key map still resolves to a live node (`node_data`
returns `Some`).  The code violates this: `petgraph::Graph::remove_node`
swap-removes, so the node with the largest index adopts the removed node's
index, and the wrapper never repairs `index_map`.  Concretely, inserting
`"a"` then `"b"` and removing `"a"` succeeds (returns `Some "da"`), leaves
`"b"` in the key map still bound to index 1, yet the graph now has a single
node at index 0 — so `node_data("b")` is `None`: a dangling key→slot entry
after a successful removal. -/
theorem c1_dangling_key_after_successful_removal :
    (removalDemo.remove_node "a").1 = some "da" ∧
    (removalDemo.remove_node "a").2.contains_node "b" = true ∧
    (removalDemo.remove_node "a").2.node_data "b" = none := by
  decide

/-- C5: on the graph with nodes root, child1, child2 (inserted in that
order) and edges root→child1, root→child2 (added in that order),
`traverse_dfs("root")` returns exactly `Some ["root", "child1", "child2"]`
(which in particular starts with root and contains child1 and child2 once
each, after root).  The two edges really were inserted (`edge_count = 2`). -/
theorem c5_dfs_visit_order :
    dfsDemo.edge_count = 2 ∧
    dfsDemo.traverse_dfs "root" = some ["root", "child1", "child2"] := by
  decide

/-- C8: on the graph with nodes node1, node2 and the single edge
node1→node2 with payload "edge1-2", `get_edges_connected_to_node("node1")`
returns exactly the one-element sequence `[("node2", "edge1-2")]`.  The
edge really was inserted (`edge_count = 1`). -/
theorem c8_connected_edges_of_node1 :
    edgeDemo.edge_count = 1 ∧
    edgeDemo.get_edges_connected_to_node "node1" = some [("node2", "edge1-2")] := by
  decide

/-- C2: for every graph built by a sequence of `add_node` and `add_edge`
operations, deserializing its serialization yields a graph observationally
equivalent to it: `contains_node`, `node_data` and `contains_edge` agree
on all keys. -/
theorem c2_serialization_round_trip {N E D : Type} [DecidableEq N]
    (g : NodeGraph N E D) (h : Built g) :
    ∃ g', NodeGraph.deserialize g.serialize = some g' ∧
      (∀ k : N, g'.contains_node k = g.contains_node k ∧
        g'.node_data k = g.node_data k) ∧
      (∀ a b : N, g'.contains_edge a b = g.contains_edge a b) :=
  ⟨g, deserialize_serialize_of_built h, fun _ => ⟨rfl, rfl⟩, fun _ _ => rfl⟩

theorem c2_serialization_round_trip_witness :
    ∃ g' : NodeGraph String String String,
      NodeGraph.deserialize edgeDemo.serialize = some g' ∧
      (∀ k, g'.contains_node k = edgeDemo.contains_node k ∧
        g'.node_data k = edgeDemo.node_data k) ∧
      (∀ a b, g'.contains_edge a b = edgeDemo.contains_edge a b) :=
  c2_serialization_round_trip edgeDemo
    (Built.addEdge "node1" "node2" "edge1-2"
      (Built.addNode "node2" "Node 2" (Built.addNode "node1" "Node 1" Built.empty))
      rfl)

/-- C3: removing a key that is present with payload `d` returns `Some d`,
afterwards `contains_node` on that key is false, and `contains_edge` is
false for every pair in which either side is the removed key. -/
theorem c3_removal_clears_presence {N E D : Type} [DecidableEq N]
    (g : NodeGraph N E D) (k : N) (d : D) (h : g.node_data k = some d) :
    (g.remove_node k).1 = some d ∧
    (g.remove_node k).2.contains_node k = false ∧
    ∀ a b : N, a = k ∨ b = k → (g.remove_node k).2.contains_edge a b = false := by
  unfold NodeGraph.node_data at h
  rcases hm : mapGet g.index_map k with _ | i <;> rw [hm] at h
  · exact absurd h (by simp)
  simp only [PGraph.nodeWeight] at h
  refine ⟨?_, ?_, ?_⟩
  · simp [NodeGraph.remove_node, hm, PGraph.removeNode, h]
  · simp [NodeGraph.remove_node, hm, PGraph.removeNode, h,
      NodeGraph.contains_node, mapGet_mapRemove_self]
  · intro a b hab
    rcases hab with rfl | rfl
    · simp [NodeGraph.remove_node, hm, PGraph.removeNode, h,
        NodeGraph.contains_edge, mapGet_mapRemove_self]
    · rcases hma : mapGet (mapRemove g.index_map b) a with _ | fi <;>
        simp [NodeGraph.remove_node, hm, PGraph.removeNode, h,
          NodeGraph.contains_edge, mapGet_mapRemove_self, hma]

theorem c3_removal_clears_presence_witness :
    removalDemo.node_data "a" = some "da" ∧
    (removalDemo.remove_node "a").1 = some "da" ∧
    (removalDemo.remove_node "a").2.contains_node "a" = false ∧
    (removalDemo.remove_node "a").2.contains_edge "a" "b" = false ∧
    (removalDemo.remove_node "a").2.contains_edge "b" "a" = false :=
  ⟨by decide,
    (c3_removal_clears_presence removalDemo "a" "da" (by decide)).1,
    (c3_removal_clears_presence removalDemo "a" "da" (by decide)).2.1,
    (c3_removal_clears_presence removalDemo "a" "da" (by decide)).2.2 "a" "b"
      (Or.inl rfl),
    (c3_removal_clears_presence removalDemo "a" "da" (by decide)).2.2 "b" "a"
      (Or.inr rfl)⟩

/-- C4: `add_edge` with at least one unmapped endpoint key returns the
`NodeNotFound` error and returns the graph unchanged (hence all counts and
queries are unchanged). -/
theorem c4_add_edge_absent_endpoint {N E D : Type} [DecidableEq N]
    (g : NodeGraph N E D) (a b : N) (w : E)
    (h : g.contains_node a = false ∨ g.contains_node b = false) :
    g.add_edge a b w = some (Except.error NodeGraphError.nodeNotFound, g) := by
  rcases h with h | h <;> rw [contains_node_eq_false_iff] at h
  · unfold NodeGraph.add_edge
    rw [h]
  · unfold NodeGraph.add_edge
    rcases hma : mapGet g.index_map a with _ | fi
    · rfl
    · rw [h]

theorem c4_add_edge_absent_endpoint_witness :
    pairDemo.contains_node "zzz" = false ∧
    pairDemo.add_edge "node1" "zzz" "w" =
      some (Except.error NodeGraphError.nodeNotFound, pairDemo) :=
  ⟨by decide,
    c4_add_edge_absent_endpoint pairDemo "node1" "zzz" "w" (Or.inr (by decide))⟩

/-- C6: re-inserting an already-present key with a new payload rebinds the
key to a freshly allocated slot: `node_data` then returns the new payload,
the key is still present, and `node_count` grows by one (the old slot stays
allocated, orphaned). -/
theorem c6_duplicate_key_overwrites {N E D : Type} [DecidableEq N]
    (g : NodeGraph N E D) (k : N) (d2 : D) (h : g.contains_node k = true) :
    (g.add_node k d2).2.node_data k = some d2 ∧
    (g.add_node k d2).2.contains_node k = true ∧
    (g.add_node k d2).2.node_count = g.node_count + 1 := by
  refine ⟨?_, ?_, ?_⟩
  · simp [NodeGraph.add_node, PGraph.addNode, NodeGraph.node_data,
      mapGet_mapInsert_self, PGraph.nodeWeight, List.getElem?_concat_length]
  · simp [NodeGraph.add_node, PGraph.addNode, NodeGraph.contains_node,
      mapGet_mapInsert_self]
  · simp [NodeGraph.add_node, PGraph.addNode, NodeGraph.node_count]

theorem c6_duplicate_key_overwrites_witness :
    removalDemo.contains_node "a" = true ∧
    (removalDemo.add_node "a" "da2").2.node_data "a" = some "da2" ∧
    (removalDemo.add_node "a" "da2").2.contains_node "a" = true ∧
    (removalDemo.add_node "a" "da2").2.node_count = removalDemo.node_count + 1 :=
  ⟨by decide,
    (c6_duplicate_key_overwrites removalDemo "a" "da2" (by decide)).1,
    (c6_duplicate_key_overwrites removalDemo "a" "da2" (by decide)).2.1,
    (c6_duplicate_key_overwrites removalDemo "a" "da2" (by decide)).2.2⟩

theorem contains_edge_resolved {N E D : Type} [DecidableEq N]
    {g : NodeGraph N E D} {a b : N} {fi ti : Nat}
    (hma : mapGet g.index_map a = some fi)
    (hmb : mapGet g.index_map b = some ti) :
    g.contains_edge a b = g.graph.containsEdge fi ti := by
  unfold NodeGraph.contains_edge
  rw [hma, hmb]

theorem remove_edge_resolved {N E D : Type} [DecidableEq N]
    {g : NodeGraph N E D} {a b : N} {fi ti : Nat}
    (hma : mapGet g.index_map a = some fi)
    (hmb : mapGet g.index_map b = some ti) :
    g.remove_edge a b =
      match g.graph.removeEdge fi ti with
      | none => (none, g)
      | some (w, pg) => (some w, ⟨pg, g.index_map⟩) := by
  unfold NodeGraph.remove_edge
  rw [hma, hmb]

/-- C7: for keys `a`, `b` both present with no `a → b` edge yet, a
successful `add_edge(a, b, w)` makes `contains_edge(a, b)` true; then
`remove_edge(a, b)` returns `Some w`, and afterwards `contains_edge(a, b)`
is false again. -/
theorem c7_edge_round_trip {N E D : Type} [DecidableEq N]
    (g g' : NodeGraph N E D) (a b : N) (w : E)
    (h1 : g.contains_node a = true) (h2 : g.contains_node b = true)
    (h3 : g.contains_edge a b = false)
    (hadd : g.add_edge a b w = some (Except.ok (), g')) :
    g'.contains_edge a b = true ∧
    (g'.remove_edge a b).1 = some w ∧
    (g'.remove_edge a b).2.contains_edge a b = false := by
  obtain ⟨fi, ti, hma, hmb, hfi, hti, hg'⟩ := add_edge_ok_inv hadd
  have hmapg : g'.index_map = g.index_map := by rw [hg']
  have hn : g'.graph.nodes = g.graph.nodes := by rw [hg']
  have he : g'.graph.edges = g.graph.edges ++ [(fi, ti, w)] := by rw [hg']
  have hma' : mapGet g'.index_map a = some fi := by rw [hmapg]; exact hma
  have hmb' : mapGet g'.index_map b = some ti := by rw [hmapg]; exact hmb
  have hfind : g'.graph.findEdge fi ti = some (fi, ti, w) := by
    unfold PGraph.findEdge PGraph.outEdges
    rw [hn, if_pos hfi, he]
    simp [List.filter_append, List.reverse_append, List.find?]
  have herase :
      ((g.graph.edges ++ [(fi, ti, w)]).reverse.eraseP
          (fun e => e.1 = fi ∧ e.2.1 = ti)).reverse = g.graph.edges := by
    rw [List.reverse_append]
    simp only [List.reverse_singleton, List.singleton_append]
    rw [List.eraseP_cons_of_pos (by simp), List.reverse_reverse]
  have hrm : g'.graph.removeEdge fi ti = some (w, g.graph) := by
    unfold PGraph.removeEdge
    rw [hfind]
    show some (w,
        (⟨g'.graph.nodes,
          (g'.graph.edges.reverse.eraseP
            (fun e => e.1 = fi ∧ e.2.1 = ti)).reverse⟩ : PGraph D E)) =
      some (w, g.graph)
    rw [hn, he, herase]
  have hremfull : g'.remove_edge a b = (some w, g) := by
    rw [remove_edge_resolved hma' hmb', hrm]
    show (some w, (⟨g.graph, g'.index_map⟩ : NodeGraph N E D)) = (some w, g)
    rw [hmapg]
  refine ⟨?_, ?_, ?_⟩
  · rw [contains_edge_resolved hma' hmb']
    unfold PGraph.containsEdge
    rw [hfind]
    rfl
  · rw [hremfull]
  · rw [hremfull]
    exact h3

theorem c7_edge_round_trip_witness :
    edgeDemo.contains_edge "node1" "node2" = true ∧
    (edgeDemo.remove_edge "node1" "node2").1 = some "edge1-2" ∧
    (edgeDemo.remove_edge "node1" "node2").2.contains_edge "node1" "node2" = false :=
  c7_edge_round_trip pairDemo edgeDemo "node1" "node2" "edge1-2"
    (by decide) (by decide) (by decide) rfl

theorem get_edges_from_resolved {N E D : Type} [DecidableEq N]
    {g : NodeGraph N E D} {k : N} {i : Nat}
    (hi : mapGet g.index_map k = some i) :
    g.get_edges_from k =
      some ((g.graph.outEdges i).filterMap (fun e =>
        (revLookup g.index_map e.2.1).map (fun tid => (tid, e.2.2)))) := by
  unfold NodeGraph.get_edges_from
  rw [hi]

theorem get_edges_connected_resolved {N E D : Type} [DecidableEq N]
    {g : NodeGraph N E D} {k : N} {i : Nat}
    (hi : mapGet g.index_map k = some i) :
    g.get_edges_connected_to_node k =
      some ((g.graph.outEdges i).filterMap (fun e =>
        let adjacent := if e.1 = i then e.2.1 else e.1
        match revLookup g.index_map adjacent with
        | none => none
        | some id2 => some (id2, e.2.2))) := by
  unfold NodeGraph.get_edges_connected_to_node
  rw [hi]

/-- C9: the three absent-input paths return their designated absent signal
and leave the graph unchanged: `remove_node` on an absent key returns
`None` with the graph untouched, `traverse_dfs` on an absent key returns
`None`, and `remove_edge` on a pair with no edge (including when either
key is absent) returns `None` with the graph untouched. -/
theorem c9_absence_yields_empty {N E D : Type} [DecidableEq N]
    (g : NodeGraph N E D) (k a b : N) :
    (g.contains_node k = false →
      g.remove_node k = (none, g) ∧ g.traverse_dfs k = none) ∧
    (g.contains_edge a b = false → g.remove_edge a b = (none, g)) := by
  constructor
  · intro h
    rw [contains_node_eq_false_iff] at h
    constructor
    · unfold NodeGraph.remove_node
      rw [h]
    · unfold NodeGraph.traverse_dfs
      rw [h]
  · intro h
    rcases hma : mapGet g.index_map a with _ | fi
    · unfold NodeGraph.remove_edge
      rw [hma]
    · rcases hmb : mapGet g.index_map b with _ | ti
      · unfold NodeGraph.remove_edge
        rw [hma, hmb]
      · have h' : g.graph.containsEdge fi ti = false := by
          rw [contains_edge_resolved hma hmb] at h
          exact h
        have hfe : g.graph.findEdge fi ti = none := by
          rcases hq : g.graph.findEdge fi ti with _ | e
          · rfl
          · unfold PGraph.containsEdge at h'
            rw [hq] at h'
            simp at h'
        rw [remove_edge_resolved hma hmb]
        unfold PGraph.removeEdge
        rw [hfe]

theorem c9_absence_yields_empty_witness :
    (pairDemo.contains_node "zzz" = false ∧
      pairDemo.remove_node "zzz" = (none, pairDemo) ∧
      pairDemo.traverse_dfs "zzz" = none) ∧
    (edgeDemo.contains_edge "node2" "node1" = false ∧
      edgeDemo.remove_edge "node2" "node1" = (none, edgeDemo)) :=
  ⟨⟨by decide,
     ((c9_absence_yields_empty pairDemo "zzz" "zzz" "zzz").1 (by decide)).1,
     ((c9_absence_yields_empty pairDemo "zzz" "zzz" "zzz").1 (by decide)).2⟩,
   ⟨by decide,
     (c9_absence_yields_empty edgeDemo "zzz" "node2" "node1").2 (by decide)⟩⟩

/-- C10: a present key with no incident edges yields `Some []` from both
`get_edges_from` and `get_edges_connected_to_node`, while an absent key
yields `None` from both — the two cases are distinguishable at the public
interface. -/
theorem c10_empty_distinct_from_absent {N E D : Type} [DecidableEq N]
    (g : NodeGraph N E D) (k : N) :
    (g.contains_node k = false →
      g.get_edges_from k = none ∧ g.get_edges_connected_to_node k = none) ∧
    (∀ i, mapGet g.index_map k = some i →
      (∀ e ∈ g.graph.edges, ¬ (e.1 = i ∨ e.2.1 = i)) →
      g.get_edges_from k = some [] ∧
        g.get_edges_connected_to_node k = some []) := by
  constructor
  · intro h
    rw [contains_node_eq_false_iff] at h
    constructor
    · unfold NodeGraph.get_edges_from
      rw [h]
    · unfold NodeGraph.get_edges_connected_to_node
      rw [h]
  · intro i hi hfree
    have hout : g.graph.outEdges i = [] := by
      unfold PGraph.outEdges
      rw [List.reverse_eq_nil_iff, List.filter_eq_nil_iff]
      intro e he
      simp only [decide_eq_true_eq]
      intro hh
      exact hfree e he (Or.inl hh)
    constructor
    · rw [get_edges_from_resolved hi, hout]
      rfl
    · rw [get_edges_connected_resolved hi, hout]
      rfl

theorem c10_empty_distinct_from_absent_witness :
    (pairDemo.contains_node "zzz" = false ∧
      pairDemo.get_edges_from "zzz" = none ∧
      pairDemo.get_edges_connected_to_node "zzz" = none) ∧
    (mapGet pairDemo.index_map "node2" = some 1 ∧
      pairDemo.get_edges_from "node2" = some [] ∧
      pairDemo.get_edges_connected_to_node "node2" = some []) :=
  ⟨⟨by decide,
     ((c10_empty_distinct_from_absent pairDemo "zzz").1 (by decide)).1,
     ((c10_empty_distinct_from_absent pairDemo "zzz").1 (by decide)).2⟩,
   ⟨by decide,
     ((c10_empty_distinct_from_absent pairDemo "node2").2 1 (by decide)
       (by decide)).1,
     ((c10_empty_distinct_from_absent pairDemo "node2").2 1 (by decide)
       (by decide)).2⟩⟩
